import Mathlib

/-!
Verification of the brun automation engine core: the durable state store
(`State` in systembooted.go), the cron / boot trigger `Check` algorithms
(cron.go, boot.go), the orchestrator fan-out with call-stack based cycle
prevention and ANSI stripping (orchestrator.go), the run unit result
mapping (run unit source), and the check-mode aware git trigger (modelled
from the spec, exercised by git_test.go).

Times are embedded as `Int` seconds (nanoseconds for Go durations where
noted).  RFC3339 timestamp strings are embedded by the `SVal.timeStr`
constructor: `timeStr t` stands for the (unique) RFC3339 rendering of the
instant `t`, while `rawStr s` stands for a string that does not parse as
RFC3339.  Fallible Go returns are embedded as `Option`.
-/

set_option autoImplicit false

namespace BRun

/-- Scalar values held by the state store (`map[string]any` in state.go /
systembooted.go).  `timeStr t` is a string holding the RFC3339 rendering of
instant `t`; `rawStr s` is any other string; `intVal` and `boolVal` are the
remaining scalar kinds the units store. -/
inductive SVal where
  | timeStr (t : Int)
  | rawStr (s : String)
  | intVal (n : Int)
  | boolVal (b : Bool)
deriving DecidableEq, Repr

/-- Embedding of Go `time.Parse(time.RFC3339, s)`: succeeds exactly on
strings that are RFC3339 renderings of an instant. -/
def parseRFC3339 : SVal → Option Int
  | .timeStr t => some t
  | _ => none

/-- Go string type assertion `value.(string)`: true exactly for the two
string-kind scalars. -/
def isStringVal : SVal → Bool
  | .timeStr _ => true
  | .rawStr _ => true
  | _ => false

/-- Association-list lookup, embedding Go map indexing `m[k]`. -/
def lookupA {α : Type} : List (String × α) → String → Option α
  | [], _ => none
  | (k, v) :: rest, key => if k = key then some v else lookupA rest key

/-- Association-list update, embedding Go map assignment `m[k] = v`
(replace the binding if present, otherwise append). -/
def setA {α : Type} : List (String × α) → String → α → List (String × α)
  | [], key, v => [(key, v)]
  | (k, w) :: rest, key, v =>
      if k = key then (key, v) :: rest else (k, w) :: setA rest key v

/-- Per-unit key/value map (`map[string]any` nested value). -/
abbrev UnitData := List (String × SVal)

/-- The two-level store `unit-name → key → value` (field `data` of `State`). -/
abbrev StoreData := List (String × UnitData)

/-- The state store together with its backing file: `store` is the in-memory
`State.data`, `disk` the YAML file contents (`none` = file missing).  YAML
marshal/unmarshal round-trips the map, so the file is embedded as the map it
encodes. -/
structure StateWorld where
  store : StoreData
  disk : Option StoreData
deriving DecidableEq, Repr

/-- `State.Get` (systembooted.go): two-level map lookup. -/
def stateGet (w : StateWorld) (u k : String) : Option SVal :=
  match lookupA w.store u with
  | none => none
  | some m => lookupA m k

/-- `State.GetString`: `Get` followed by the `value.(string)` assertion;
returns the value only when it is string-kind. -/
def stateGetString (w : StateWorld) (u k : String) : Option SVal :=
  match stateGet w u k with
  | some v => if isStringVal v then some v else none
  | none => none

/-- `State.Save` (systembooted.go): marshal the whole in-memory map and
write it to the file. -/
def stateSave (w : StateWorld) : StateWorld :=
  { w with disk := some w.store }

/-- `State.Load` (systembooted.go): read the file; a missing file is an
empty store. -/
def stateLoad (w : StateWorld) : StateWorld :=
  { w with store := w.disk.getD [] }

/-- `State.Set` (systembooted.go): ensure the inner map exists, bind the
key, then `Save` synchronously before returning. -/
def stateSet (w : StateWorld) (u k : String) (v : SVal) : StateWorld :=
  let m := (lookupA w.store u).getD []
  stateSave { w with store := setA w.store u (setA m k v) }

/-- `State.SetString` (systembooted.go): delegates to `Set`. -/
def stateSetString (w : StateWorld) (u k : String) (v : SVal) : StateWorld :=
  stateSet w u k v

/-- The 60-second tolerance window of cron.go `Check`. -/
def toleranceWindow : Int := 60

/-- Result of a cron `Check` call: the returned boolean, the state store
after the call, and whether the skipped-missed-run diagnostic was logged. -/
structure CronOut where
  fired : Bool
  world : StateWorld
  loggedMissedRun : Bool
deriving DecidableEq, Repr

/-- cron.go `Check`.  The parsed schedule is embedded as the function
`next` (robfig cron `Schedule.Next`: the first activation strictly after
its argument); `now` is `time.Now()` in seconds.  Faithful to cron.go
lines 53-141: on no previous execution, fire iff `next (now - 60) ≤ now`
and persist the scheduled instant; on an unparseable `last_execution`,
persist `now` and fire; otherwise compare `next lastExec` against `now`
with the 60-second tolerance, skipping (and logging) missed runs. -/
def cronCheck (next : Int → Int) (name : String) (w : StateWorld) (now : Int) : CronOut :=
  match stateGetString w name "last_execution" with
  | none =>
      let nextRun := next (now - 60)
      if nextRun < now ∨ nextRun = now then
        { fired := true
          world := stateSetString w name "last_execution" (SVal.timeStr nextRun)
          loggedMissedRun := false }
      else { fired := false, world := w, loggedMissedRun := false }
  | some v =>
      match parseRFC3339 v with
      | none =>
          { fired := true
            world := stateSetString w name "last_execution" (SVal.timeStr now)
            loggedMissedRun := false }
      | some lastExec =>
          let nextRun := next lastExec
          let timeSinceScheduled := now - nextRun
          if nextRun < now then
            if timeSinceScheduled > toleranceWindow then
              { fired := false
                world := stateSetString w name "last_execution" (SVal.timeStr now)
                loggedMissedRun := true }
            else
              { fired := true
                world := stateSetString w name "last_execution" (SVal.timeStr nextRun)
                loggedMissedRun := false }
          else if nextRun = now then
            { fired := true
              world := stateSetString w name "last_execution" (SVal.timeStr nextRun)
              loggedMissedRun := false }
          else { fired := false, world := w, loggedMissedRun := false }

/-- A sequence of cron `Check` calls at the given instants (the 10-second
polling sweeps of the orchestrator), threading the state store through. -/
def cronCheckSeq (next : Int → Int) (name : String) :
    List Int → StateWorld → List Bool × StateWorld
  | [], w => ([], w)
  | t :: ts, w =>
      let o := cronCheck next name w t
      let r := cronCheckSeq next name ts o.world
      (o.fired :: r.1, r.2)

/-- The schedule function of the cron expression `* * * * *` (one-minute
period): the next minute boundary strictly after `t`. -/
def next60 (t : Int) : Int := 60 * (Int.fdiv t 60 + 1)

/-- boot.go `Check`.  `curBoot` is the kernel boot instant computed from
system uptime by the boot detector.  Faithful to boot.go lines 45-105:
missing or unparseable `last_boot_time` is a first run (persist the boot
instant and `boot_count = 1`, fire); otherwise fire iff the absolute
difference with the persisted instant exceeds 10 seconds, persisting the
new instant and the incremented counter; else leave the store untouched. -/
def bootCheck (name : String) (curBoot : Int) (w : StateWorld) : Bool × StateWorld :=
  match stateGetString w name "last_boot_time" with
  | none =>
      (true, stateSet (stateSetString w name "last_boot_time" (SVal.timeStr curBoot))
        name "boot_count" (SVal.intVal 1))
  | some v =>
      match parseRFC3339 v with
      | none =>
          (true, stateSet (stateSetString w name "last_boot_time" (SVal.timeStr curBoot))
            name "boot_count" (SVal.intVal 1))
      | some lastBoot =>
          let diff := if curBoot - lastBoot < 0 then lastBoot - curBoot else curBoot - lastBoot
          if diff > 10 then
            let bootCount : Int :=
              match stateGet w name "boot_count" with
              | some (SVal.intVal c) => c + 1
              | _ => 1
            (true, stateSet (stateSetString w name "last_boot_time" (SVal.timeStr curBoot))
              name "boot_count" (SVal.intVal bootCount))
          else (false, w)

/-- Helper for `goDurationString`, embedding Go `time.fmtFrac`: render up
to `prec` fractional digits of `u` (least significant first), omitting
trailing zeros and emitting the decimal point only when some digit was
printed; returns the rendered fraction and `u` shifted right by `prec`
decimal digits.  `printed` and `acc` accumulate across the loop. -/
def fmtFracAux : Nat → Nat → Bool → List Char → List Char × Nat
  | u, 0, printed, acc => (if printed then '.' :: acc else acc, u)
  | u, prec + 1, printed, acc =>
      let digit := u % 10
      let printed2 := printed || digit != 0
      let acc2 := if printed2 then Char.ofNat (48 + digit) :: acc else acc
      fmtFracAux (u / 10) prec printed2 acc2

/-- Embedding of Go `time.Duration.String` (nanosecond count to text, e.g.
`1000000000 ↦ "1s"`, `90000000000 ↦ "1m30s"`, `1500000 ↦ "1.5ms"`). -/
def goDurationString (d : Int) : String :=
  let u := d.natAbs
  let sign := if d < 0 then "-" else ""
  if u < 1000000000 then
    if u = 0 then "0s"
    else
      let pu : Nat × String :=
        if u < 1000 then (0, "ns")
        else if u < 1000000 then (3, "µs")
        else (6, "ms")
      let fr := fmtFracAux u pu.1 false []
      sign ++ toString fr.2 ++ String.mk fr.1 ++ pu.2
  else
    let fr := fmtFracAux u 9 false []
    let u1 := fr.2
    let secPart := toString (u1 % 60) ++ String.mk fr.1 ++ "s"
    let u2 := u1 / 60
    let rest :=
      if u2 > 0 then
        (if u2 / 60 > 0 then toString (u2 / 60) ++ "h" else "") ++ toString (u2 % 60) ++ "m"
      else ""
    sign ++ rest ++ secPart

/-- Error returned by `exec.Cmd.Run` in the run unit: an `exec.ExitError`
carrying the exit code, or any other process error with its message. -/
inductive ProcErr where
  | exit (code : Int)
  | other (msg : String)
deriving DecidableEq, Repr

/-- Observable outcome of the subprocess: the error `cmd.Run()` returned
(`none` exactly when the script exited with status 0) and whether
`ctx.Err() == context.DeadlineExceeded` held when `Run` inspected it (the
configured timeout elapsed before completion). -/
structure ProcOutcome where
  procErr : Option ProcErr
  deadlineExceeded : Bool
deriving DecidableEq, Repr

/-- Result mapping of the run unit `Run` (error-handling tail of the
function): `none` is Go `nil`; otherwise the returned error message.
`timeout` is the configured timeout in nanoseconds (`r.timeout`). -/
def runUnitRun (timeout : Int) (oc : ProcOutcome) : Option String :=
  match oc.procErr with
  | none => none
  | some e =>
      if oc.deadlineExceeded then
        some ("task timed out after " ++ goDurationString timeout)
      else
        match e with
        | .exit code => some ("script exited with code " ++ toString code)
        | .other m => some ("failed to execute script: " ++ m)

/-- The escape character `\x1b`. -/
def escChar : Char := Char.ofNat 27

/-- The bell character `\x07`. -/
def belChar : Char := Char.ofNat 7

/-- Decidable numeric range test on code points. -/
def between (lo hi n : Nat) : Bool := decide (lo ≤ n ∧ n ≤ hi)

/-- Character class `[0-9;]` of the CSI branch of `ansiEscapeRegex`
(orchestrator.go line 218). -/
def csiParam (c : Char) : Bool := between 48 57 c.toNat || between 59 59 c.toNat

/-- Character class `[a-zA-Z]`, the final byte accepted by the CSI branch
of `ansiEscapeRegex`. -/
def csiFinal (c : Char) : Bool := between 65 90 c.toNat || between 97 122 c.toNat

/-- Character class `[0-9]` required right after `ESC ]` by the OSC branch
of `ansiEscapeRegex`. -/
def oscDigit (c : Char) : Bool := between 48 57 c.toNat

/-- Match the `[0-9;]*[a-zA-Z]` tail of the CSI branch: greedily consume
parameter characters, then require a letter; returns the remainder after
the match.  Greedy consumption is exact here because no parameter
character is a letter, so backtracking cannot produce another match. -/
def matchCSITail : List Char → Option (List Char)
  | [] => none
  | c :: cs =>
      if csiParam c then matchCSITail cs
      else if csiFinal c then some cs else none

/-- Match the `[^\x07]*\x07` tail of the OSC branch: scan to the first
bell, which is exactly where the greedy bounded class must stop. -/
def matchOSCTail : List Char → Option (List Char)
  | [] => none
  | c :: cs => if c = belChar then some cs else matchOSCTail cs

/-- Try to match `ansiEscapeRegex` at the head of the text:
`\x1b\[[0-9;]*[a-zA-Z]` or `\x1b\][0-9];[^\x07]*\x07`; returns the text
after the matched sequence. -/
def matchAnsi : List Char → Option (List Char)
  | c1 :: c2 :: cs =>
      if c1 = escChar ∧ c2 = '[' then matchCSITail cs
      else if c1 = escChar ∧ c2 = ']' then
        match cs with
        | d :: s :: cs2 =>
            if oscDigit d = true ∧ s = ';' then matchOSCTail cs2 else none
        | _ => none
      else none
  | _ => none

/-- One left-to-right pass of `ReplaceAllString(s, "")`: at each position
delete the leftmost-first regex match, otherwise keep the character.  The
fuel argument (always at least the text length) makes the recursion
structural; every match consumes at least one character. -/
def stripFuel : Nat → List Char → List Char
  | 0, l => l
  | _ + 1, [] => []
  | fuel + 1, c :: cs =>
      match matchAnsi (c :: cs) with
      | some rest => stripFuel fuel rest
      | none => c :: stripFuel fuel cs

/-- orchestrator.go `stripANSI` on character lists. -/
def stripAnsiList (l : List Char) : List Char := stripFuel l.length l

/-- orchestrator.go `stripANSI`: remove all `ansiEscapeRegex` matches. -/
def stripANSI (s : String) : String := String.mk (stripAnsiList s.data)

/-- A complete CSI sequence as the code's regex accepts it:
`ESC [ params* letter`. -/
def IsCSISeq (l : List Char) : Prop :=
  ∃ ps f, (∀ c ∈ ps, csiParam c = true) ∧ csiFinal f = true ∧
    l = escChar :: '[' :: (ps ++ [f])

/-- A complete OSC sequence as the code's regex accepts it:
`ESC ] digit ; non-bell* BEL`. -/
def IsOSCSeq (l : List Char) : Prop :=
  ∃ d mid, oscDigit d = true ∧ (∀ c ∈ mid, c ≠ belChar) ∧
    l = escChar :: ']' :: d :: ';' :: (mid ++ [belChar])

/-- Some sequence accepted by the code's regex starts at the head. -/
def HeadAnsi (l : List Char) : Prop :=
  ∃ pre rest, (IsCSISeq pre ∨ IsOSCSeq pre) ∧ l = pre ++ rest

/-- Declarative characterisation of the code's stripping pass: delete a
leading accepted sequence, or keep a character at which no accepted
sequence starts. -/
inductive StripSpec : List Char → List Char → Prop where
  | nil : StripSpec [] []
  | strip (pre rest out : List Char) :
      (IsCSISeq pre ∨ IsOSCSeq pre) → StripSpec rest out →
      StripSpec (pre ++ rest) out
  | keep (c : Char) (rest out : List Char) :
      ¬HeadAnsi (c :: rest) → StripSpec rest out →
      StripSpec (c :: rest) (c :: out)

/-- An ANSI CSI final byte, `0x40`-`0x7E`, as in the claimed reading
`ESC [ ... final-byte`. -/
def csiFinalByte (c : Char) : Bool := between 64 126 c.toNat

/-- ANSI CSI parameter/intermediate bytes `0x20`-`0x3F`. -/
def ansiMidByte (c : Char) : Bool := between 32 63 c.toNat

/-- A CSI sequence in the sense of the claim (any ANSI CSI sequence
`ESC [ ... final-byte`). -/
def IsCSISeqClaim (l : List Char) : Prop :=
  ∃ mid f, (∀ c ∈ mid, ansiMidByte c = true) ∧ csiFinalByte f = true ∧
    l = escChar :: '[' :: (mid ++ [f])

/-- An OSC sequence in the sense of the claim: `ESC ] ... BEL` with no
interior bell. -/
def IsOSCSeqClaim (l : List Char) : Prop :=
  ∃ mid, (∀ c ∈ mid, c ≠ belChar) ∧ l = escChar :: ']' :: (mid ++ [belChar])

/-- Some claimed CSI or OSC sequence starts at the head. -/
def HeadAnsiClaim (l : List Char) : Prop :=
  ∃ pre rest, (IsCSISeqClaim pre ∨ IsOSCSeqClaim pre) ∧ l = pre ++ rest

/-- The claimed stripping: remove every CSI (`ESC [ ... final-byte`) and
every OSC (`ESC ] ... BEL`) sequence, keep everything else. -/
inductive SpecStripClaim : List Char → List Char → Prop where
  | nil : SpecStripClaim [] []
  | strip (pre rest out : List Char) :
      (IsCSISeqClaim pre ∨ IsOSCSeqClaim pre) → SpecStripClaim rest out →
      SpecStripClaim (pre ++ rest) out
  | keep (c : Char) (rest out : List Char) :
      ¬HeadAnsiClaim (c :: rest) → SpecStripClaim rest out →
      SpecStripClaim (c :: rest) (c :: out)

/-- A complete OSC sequence whose code is not a digit: removed under the
claimed reading, retained by the code's regex. -/
def oscExample : List Char := [escChar, ']', 'a', 'b', belChar]

/-- A unit as the orchestrator observes it: its identity, whether it is a
`TriggerUnit`, the outcomes of `Check(ctx, Polling)` and
`Check(ctx, Manual)` (`none` embeds an error return), whether `Run`
returns an error, the text it writes to stdout/stderr, and its three
reference lists. -/
structure OUnit where
  name : String
  type : String
  isTrigger : Bool
  checkPolling : Option Bool
  checkManual : Option Bool
  runErr : Bool
  output : String
  onSuccess : List String
  onFailure : List String
  always : List String
deriving DecidableEq, Repr

/-- Orchestrator log/trace events: `ran` when `executeUnit` invokes a
unit's `Run`; the `skipped` events are the orchestrator's diagnostics for
an unknown reference, a circular dependency, a false manual check, and an
errored manual check. -/
inductive OEvent where
  | ran (name : String) (err : Bool)
  | skippedNotFound (name : String)
  | skippedCircular (name : String)
  | skippedCheckFalse (name : String)
  | skippedCheckError (name : String)
deriving DecidableEq, Repr

/-- The orchestrator's `unitsByName` map, built by insertion in order (a
later unit with the same name overwrites an earlier one, as for a Go map). -/
def unitsByName (units : List OUnit) (n : String) : Option OUnit :=
  units.foldl (fun acc u => if u.name = n then some u else acc) none

/-- The `toTrigger` list assembled in `processTriggers`: `on_success` on a
nil error, `on_failure` otherwise, then `always`. -/
def toTriggerList (u : OUnit) : List String :=
  (if u.runErr then u.onFailure else u.onSuccess) ++ u.always

/-- Orchestrator per-sweep state: the results map (unit name to run error
and ANSI-stripped captured output), the bytes shown on the terminal, and
the event trace. -/
structure OState where
  results : List (String × (Bool × String))
  terminal : String
  events : List OEvent
deriving DecidableEq, Repr

/-- Append a diagnostic event. -/
def addEvent (st : OState) (e : OEvent) : OState :=
  { st with events := st.events ++ [e] }

/-- The body of `executeUnit` up to the fan-out: run the unit, tee its raw
output to the terminal, store the ANSI-stripped output and error in the
results map, and trace the run. -/
def recordRun (st : OState) (u : OUnit) : OState :=
  { results := setA st.results u.name (u.runErr, stripANSI u.output)
    terminal := st.terminal ++ u.output
    events := st.events ++ [OEvent.ran u.name u.runErr] }

/-- The fan-out loop of `processTriggers` (orchestrator.go lines 455-517)
over the remaining downstream names: look the target up, skip unknown
names, skip targets already on the incoming call stack with a circular-
dependency diagnostic, re-gate trigger targets through `Check(ctx,
Manual)` (skipping on false or error), and otherwise recurse into
`executeUnit` with the call stack extended by the target.  The fuel
argument bounds the recursion depth and is consumed on every step; the
real recursion is bounded by the call-stack discipline, so ample fuel
reproduces it exactly. -/
def fanOut (units : List OUnit) : Nat → List String → List String → OState → OState
  | 0, _, _, st => st
  | _ + 1, [], _, st => st
  | fuel + 1, n :: rest, stack, st =>
      let st2 :=
        match unitsByName units n with
        | none => addEvent st (OEvent.skippedNotFound n)
        | some t =>
            if n ∈ stack then addEvent st (OEvent.skippedCircular n)
            else if t.isTrigger then
              match t.checkManual with
              | none => addEvent st (OEvent.skippedCheckError n)
              | some false => addEvent st (OEvent.skippedCheckFalse n)
              | some true =>
                  fanOut units fuel (toTriggerList t) (stack ++ [n]) (recordRun st t)
            else fanOut units fuel (toTriggerList t) (stack ++ [n]) (recordRun st t)
      fanOut units fuel rest stack st2

/-- orchestrator.go `executeUnit`: run the unit, record its result, then
fan out its reference lists with the given call stack. -/
def executeUnit (units : List OUnit) (fuel : Nat) (u : OUnit) (stack : List String)
    (st : OState) : OState :=
  fanOut units fuel (toTriggerList u) stack (recordRun st u)

/-- orchestrator.go `checkAndExecuteTriggers`: reset the results, then for
every trigger unit in order (skipping startup-only kinds outside the
startup sweep) poll its check and execute it with call stack `[name]` when
the check fires. -/
def sweep (units : List OUnit) (fuel : Nat) (isStartup : Bool) : OState :=
  units.foldl
    (fun st u =>
      if u.isTrigger then
        if ¬isStartup ∧ (u.type = "trigger.boot" ∨ u.type = "trigger.start") then st
        else
          match u.checkPolling with
          | some true => executeUnit units fuel u [u.name] st
          | _ => st
      else st)
    { results := [], terminal := "", events := [] }

/-- Number of `ran` events for a unit name: how often its `Run` was
invoked during the sweep. -/
def ranCount (evs : List OEvent) (n : String) : Nat :=
  (evs.filter (fun e =>
    match e with
    | OEvent.ran m _ => m == n
    | _ => false)).length

/-- Number of circular-dependency skip diagnostics for a unit name. -/
def circularSkipCount (evs : List OEvent) (n : String) : Nat :=
  (evs.filter (fun e =>
    match e with
    | OEvent.skippedCircular m => m == n
    | _ => false)).length

/-- Start trigger of the end-to-end scenarios: fires on every check in
both modes, references `unit-a` and `unit-b`. -/
def sharedStart : OUnit :=
  { name := "start", type := "trigger.start", isTrigger := true
    checkPolling := some true, checkManual := some true, runErr := false
    output := "", onSuccess := [], onFailure := [], always := ["unit-a", "unit-b"] }

/-- Scenario 1 run unit `unit-a`, always triggering the shared `counter`. -/
def sharedUnitA : OUnit :=
  { name := "unit-a", type := "run", isTrigger := false
    checkPolling := none, checkManual := none, runErr := false
    output := "", onSuccess := [], onFailure := [], always := ["counter"] }

/-- Scenario 1 run unit `unit-b`, always triggering the shared `counter`. -/
def sharedUnitB : OUnit :=
  { name := "unit-b", type := "run", isTrigger := false
    checkPolling := none, checkManual := none, runErr := false
    output := "", onSuccess := [], onFailure := [], always := ["counter"] }

/-- Scenario 1 shared sink: a count unit with no references. -/
def sharedCounter : OUnit :=
  { name := "counter", type := "count", isTrigger := false
    checkPolling := none, checkManual := none, runErr := false
    output := "", onSuccess := [], onFailure := [], always := [] }

/-- Scenario 1 (fan-out with shared sink): `start` always triggers
`unit-a` and `unit-b`, each of which always triggers `counter`. -/
def scenarioShared : List OUnit := [sharedStart, sharedUnitA, sharedUnitB, sharedCounter]

/-- Start trigger referencing only `A`. -/
def loopStart : OUnit :=
  { name := "start", type := "trigger.start", isTrigger := true
    checkPolling := some true, checkManual := some true, runErr := false
    output := "", onSuccess := [], onFailure := [], always := ["A"] }

/-- Scenario 3 self-loop unit: `A` always references itself. -/
def selfLoopA : OUnit :=
  { name := "A", type := "run", isTrigger := false
    checkPolling := none, checkManual := none, runErr := false
    output := "", onSuccess := [], onFailure := [], always := ["A"] }

/-- Scenario 3 (self-loop): `start` triggers `A`, and `A` references
itself. -/
def scenarioSelfLoop : List OUnit := [loopStart, selfLoopA]

/-- Scenario 2 unit `A`, always referencing `B`. -/
def cycleA : OUnit :=
  { name := "A", type := "run", isTrigger := false
    checkPolling := none, checkManual := none, runErr := false
    output := "", onSuccess := [], onFailure := [], always := ["B"] }

/-- Scenario 2 unit `B`, always referencing `A` (closing the cycle). -/
def cycleB : OUnit :=
  { name := "B", type := "run", isTrigger := false
    checkPolling := none, checkManual := none, runErr := false
    output := "", onSuccess := [], onFailure := [], always := ["A"] }

/-- Scenario 2 (indirect cycle): `start` triggers `A`, `A` references `B`,
`B` references `A`. -/
def scenarioCycle : List OUnit := [loopStart, cycleA, cycleB]

/-- A trigger unit whose manual check returns false (a gated git unit). -/
def gatedTrigger : OUnit :=
  { name := "gated", type := "trigger.git", isTrigger := true
    checkPolling := some false, checkManual := some false, runErr := false
    output := "", onSuccess := ["build"], onFailure := [], always := [] }

/-- A trigger unit whose manual check returns an error. -/
def erroredTrigger : OUnit :=
  { name := "errored", type := "trigger.git", isTrigger := true
    checkPolling := some false, checkManual := none, runErr := false
    output := "", onSuccess := ["build"], onFailure := [], always := [] }

/-- Units for the C2 witness: a start trigger fanning out to the gated and
errored triggers. -/
def scenarioGated : List OUnit := [gatedTrigger, erroredTrigger]

/-- The two check modes (CheckMode in the unit contract): `polling` for
scheduler sweeps, `manual` for transitive invocation. -/
inductive CheckMode where
  | polling
  | manual
deriving DecidableEq, Repr

/-- Externally visible work done by a git check. -/
inductive GitEffect where
  | workspaceUpdate
  | readHead
  | stateWrite
deriving DecidableEq, Repr

/-- In-memory bookkeeping of the poll-aware git trigger: the instant of
the last real check, if any. -/
structure GitUnitState where
  lastCheckTime : Option Int
deriving DecidableEq, Repr

/-- Modelled from the spec: the hash-comparison core of the git trigger's
check (spec 4.4 check algorithm; the CheckMode-aware implementation is
exercised by git_test.go but absent from the provided sources).  Update
the workspace when it is a local working tree, read HEAD, compare with the
persisted `last_commit_hash`, fire and persist on a difference or a
missing record. -/
def gitDoCheck (name : String) (isWorkspace : Bool) (currentHash : String)
    (gs : GitUnitState) (w : StateWorld) :
    Bool × GitUnitState × StateWorld × List GitEffect :=
  let effs := (if isWorkspace then [GitEffect.workspaceUpdate] else []) ++ [GitEffect.readHead]
  match stateGetString w name "last_commit_hash" with
  | some v =>
      if v = SVal.rawStr currentHash then (false, gs, w, effs)
      else (true, gs, stateSetString w name "last_commit_hash" (SVal.rawStr currentHash),
        effs ++ [GitEffect.stateWrite])
  | none =>
      (true, gs, stateSetString w name "last_commit_hash" (SVal.rawStr currentHash),
        effs ++ [GitEffect.stateWrite])

/-- Modelled from the spec: the CheckMode-aware git trigger `Check` (spec
4.4 mode table; implementation absent from the provided sources, behaviour
pinned by git_test.go).  In Polling mode with no poll interval it does
nothing and returns false; with a poll interval it skips while less than
the interval has elapsed since the last check and otherwise checks and
updates the check time; in Manual mode it always checks immediately. -/
def gitCheck (name : String) (pollInterval : Int) (mode : CheckMode) (isWorkspace : Bool)
    (currentHash : String) (now : Int) (gs : GitUnitState) (w : StateWorld) :
    Bool × GitUnitState × StateWorld × List GitEffect :=
  match mode with
  | CheckMode.polling =>
      if pollInterval = 0 then (false, gs, w, [])
      else
        match gs.lastCheckTime with
        | some t =>
            if now - t < pollInterval then (false, gs, w, [])
            else gitDoCheck name isWorkspace currentHash { lastCheckTime := some now } w
        | none => gitDoCheck name isWorkspace currentHash { lastCheckTime := some now } w
  | CheckMode.manual => gitDoCheck name isWorkspace currentHash gs w

end BRun

namespace BRun

theorem lookupA_setA_self {α : Type} (l : List (String × α)) (k : String) (v : α) :
    lookupA (setA l k v) k = some v := by
  induction l with
  | nil => simp [setA, lookupA]
  | cons p rest ih =>
    obtain ⟨k1, v1⟩ := p
    by_cases h : k1 = k
    · simp [setA, h, lookupA]
    · simp [setA, h, lookupA, ih]

theorem lookupA_setA_ne {α : Type} (l : List (String × α)) (k k2 : String) (v : α)
    (h : k2 ≠ k) : lookupA (setA l k v) k2 = lookupA l k2 := by
  have hne : ¬k = k2 := fun hh => h hh.symm
  induction l with
  | nil => simp [setA, lookupA, hne]
  | cons p rest ih =>
    obtain ⟨k1, v1⟩ := p
    by_cases h1 : k1 = k
    · subst h1
      simp [setA, lookupA, hne]
    · simp [setA, h1, lookupA, ih]

theorem stateGet_set_self (w : StateWorld) (u k : String) (v : SVal) :
    stateGet (stateSet w u k v) u k = some v := by
  simp [stateGet, stateSet, stateSave, lookupA_setA_self]

theorem stateGet_set_ne_key (w : StateWorld) (u k k2 : String) (v : SVal)
    (h : k2 ≠ k) : stateGet (stateSet w u k v) u k2 = stateGet w u k2 := by
  simp only [stateGet, stateSet, stateSave, lookupA_setA_self, lookupA_setA_ne _ _ _ _ h]
  cases hl : lookupA w.store u with
  | none => simp [hl, lookupA]
  | some m => simp [hl]

theorem stateGetString_set_time (w : StateWorld) (u k : String) (t : Int) :
    stateGetString (stateSet w u k (SVal.timeStr t)) u k = some (SVal.timeStr t) := by
  simp [stateGetString, stateGet_set_self, isStringVal]

/-- C4: state-store round-trip.  A successful `Set(u,k,v)` persists the full
store to disk before returning (disk equals the in-memory store right after
the mutator), and a subsequent `Load()` followed by `Get(u,k)` returns `v`. -/
theorem state_set_persists_and_roundtrips (w : StateWorld) (u k : String) (v : SVal) :
    (stateSet w u k v).disk = some (stateSet w u k v).store ∧
    stateGet (stateLoad (stateSet w u k v)) u k = some v := by
  constructor
  · rfl
  · have h : stateLoad (stateSet w u k v) = stateSet w u k v := by
      simp [stateLoad, stateSet, stateSave]
    rw [h]
    exact stateGet_set_self w u k v

theorem cronCheck_before_next_scheduled (next : Int → Int) (name : String)
    (w : StateWorld) (t T : Int)
    (hget : stateGetString w name "last_execution" = some (SVal.timeStr T))
    (ht : t < next T) :
    cronCheck next name w t = { fired := false, world := w, loggedMissedRun := false } := by
  have h1 : ¬(next T < t) := by omega
  have h2 : ¬(next T = t) := by omega
  simp [cronCheck, hget, parseRFC3339, h1, h2]

theorem cronCheckSeq_before_next_scheduled (next : Int → Int) (name : String)
    (w : StateWorld) (T : Int)
    (hget : stateGetString w name "last_execution" = some (SVal.timeStr T)) :
    ∀ ts : List Int, (∀ t ∈ ts, t < next T) →
      cronCheckSeq next name ts w = (List.replicate ts.length false, w) := by
  intro ts
  induction ts with
  | nil => intro _; rfl
  | cons t rest ih =>
    intro hts
    have h1 : cronCheck next name w t = { fired := false, world := w, loggedMissedRun := false } :=
      cronCheck_before_next_scheduled next name w t T hget (hts t (by simp))
    have h2 := ih (fun u hu => hts u (by simp [hu]))
    simp [cronCheckSeq, h1, h2, List.replicate]

/-- C3 counterexample: with the one-minute schedule `* * * * *` and
`last_execution = 0` persisted, a `Check` at `t = 119` fires (a late,
within-tolerance fire for the scheduled instant 60) and the very next
`Check` at `t = 120` fires again — two of the calls return true although
the calls are only 1 second apart, far less than the 60-second scheduled
period, contradicting the claim as stated. -/
theorem cron_double_fire_within_period :
    (cronCheck next60 "cron" ⟨[("cron", [("last_execution", SVal.timeStr 0)])], none⟩ 119).fired
      = true ∧
    (cronCheck next60 "cron"
      (cronCheck next60 "cron" ⟨[("cron", [("last_execution", SVal.timeStr 0)])], none⟩ 119).world
      120).fired = true ∧
    next60 0 = 60 ∧ next60 60 = 120 ∧ (120 : Int) - 119 < 60 := by
  refine ⟨?_, ?_, ?_, ?_, ?_⟩ <;> decide

/-- C3 amended: a firing `Check` persists a scheduled-or-current instant
`T ≤ now` as `last_execution`, and every subsequent `Check` strictly before
the next scheduled instant `next T` returns false and leaves the store
unchanged, regardless of how many polling sweeps occur; so at most one fire
occurs strictly between consecutive scheduled instants.  (Two calls less
than one period apart can still both fire when a late within-tolerance fire
is followed by an on-time fire, as the counterexample shows.) -/
theorem cron_at_most_one_fire_before_next_scheduled (next : Int → Int) (name : String)
    (w : StateWorld) (now : Int)
    (h : (cronCheck next name w now).fired = true) :
    ∃ T : Int, T ≤ now ∧
      stateGetString (cronCheck next name w now).world name "last_execution"
        = some (SVal.timeStr T) ∧
      ∀ ts : List Int, (∀ t ∈ ts, t < next T) →
        cronCheckSeq next name ts (cronCheck next name w now).world
          = (List.replicate ts.length false, (cronCheck next name w now).world) := by
  unfold cronCheck at h ⊢
  cases hg : stateGetString w name "last_execution" with
  | none =>
    simp only [hg] at h ⊢
    by_cases hc : next (now - 60) < now ∨ next (now - 60) = now
    · simp only [hc, if_true] at h ⊢
      refine ⟨next (now - 60), by omega, ?_, ?_⟩
      · exact stateGetString_set_time w name "last_execution" (next (now - 60))
      · intro ts hts
        exact cronCheckSeq_before_next_scheduled next name _ _
          (stateGetString_set_time w name "last_execution" (next (now - 60))) ts hts
    · simp [hc] at h
  | some v =>
    cases hv : parseRFC3339 v with
    | none =>
      simp only [hg, hv] at h ⊢
      refine ⟨now, le_refl now, ?_, ?_⟩
      · exact stateGetString_set_time w name "last_execution" now
      · intro ts hts
        exact cronCheckSeq_before_next_scheduled next name _ _
          (stateGetString_set_time w name "last_execution" now) ts hts
    | some lastExec =>
      simp only [hg, hv] at h ⊢
      by_cases hlt : next lastExec < now
      · by_cases hmiss : now - next lastExec > toleranceWindow
        · simp [hlt, hmiss] at h
        · simp only [hlt, hmiss, if_true, if_false] at h ⊢
          refine ⟨next lastExec, by omega, ?_, ?_⟩
          · exact stateGetString_set_time w name "last_execution" (next lastExec)
          · intro ts hts
            exact cronCheckSeq_before_next_scheduled next name _ _
              (stateGetString_set_time w name "last_execution" (next lastExec)) ts hts
      · by_cases heq : next lastExec = now
        · rw [if_neg hlt, if_pos heq] at h ⊢
          refine ⟨next lastExec, by omega, ?_, ?_⟩
          · exact stateGetString_set_time w name "last_execution" (next lastExec)
          · intro ts hts
            exact cronCheckSeq_before_next_scheduled next name _ _
              (stateGetString_set_time w name "last_execution" (next lastExec)) ts hts
        · simp [hlt, heq] at h

theorem cron_amended_witness :
    ∃ T : Int, T ≤ 119 ∧
      stateGetString (cronCheck next60 "cron"
          ⟨[("cron", [("last_execution", SVal.timeStr 0)])], none⟩ 119).world
        "cron" "last_execution" = some (SVal.timeStr T) ∧
      ∀ ts : List Int, (∀ t ∈ ts, t < next60 T) →
        cronCheckSeq next60 "cron" ts (cronCheck next60 "cron"
            ⟨[("cron", [("last_execution", SVal.timeStr 0)])], none⟩ 119).world
          = (List.replicate ts.length false,
            (cronCheck next60 "cron"
              ⟨[("cron", [("last_execution", SVal.timeStr 0)])], none⟩ 119).world) :=
  cron_at_most_one_fire_before_next_scheduled next60 "cron"
    ⟨[("cron", [("last_execution", SVal.timeStr 0)])], none⟩ 119 (by decide)

/-- C7: cron missed-run skip.  When a parseable `last_execution` is
persisted and its next scheduled instant lies more than 60 seconds in the
past, `Check` returns false, persists the wall-clock `now` (not the
scheduled instant) as `last_execution`, and logs the skipped-missed-run
diagnostic. -/
theorem cron_missed_run_skips (next : Int → Int) (name : String) (w : StateWorld)
    (now T : Int)
    (hget : stateGetString w name "last_execution" = some (SVal.timeStr T))
    (hmiss : now - next T > 60) :
    cronCheck next name w now =
      { fired := false
        world := stateSetString w name "last_execution" (SVal.timeStr now)
        loggedMissedRun := true } := by
  have h1 : next T < now := by omega
  have h2 : now - next T > toleranceWindow := by simp [toleranceWindow]; omega
  simp [cronCheck, hget, parseRFC3339, h1, h2]

theorem cron_missed_run_witness :
    cronCheck next60 "cron" ⟨[("cron", [("last_execution", SVal.timeStr 0)])], none⟩ 1000 =
      { fired := false
        world := stateSetString ⟨[("cron", [("last_execution", SVal.timeStr 0)])], none⟩
          "cron" "last_execution" (SVal.timeStr 1000)
        loggedMissedRun := true } :=
  cron_missed_run_skips next60 "cron" _ 1000 0 (by decide) (by decide)

/-- C10: a persisted `last_execution` that is not parseable as RFC3339 is
treated as a first run — `Check` overwrites it with the current wall-clock
instant and fires, without returning an error. -/
theorem cron_unparseable_state_fires (next : Int → Int) (name : String) (w : StateWorld)
    (now : Int) (s : String)
    (hget : stateGetString w name "last_execution" = some (SVal.rawStr s)) :
    cronCheck next name w now =
      { fired := true
        world := stateSetString w name "last_execution" (SVal.timeStr now)
        loggedMissedRun := false } := by
  simp [cronCheck, hget, parseRFC3339]

theorem stateGetString_after_boot_sets (w : StateWorld) (u : String) (c m : Int) :
    stateGetString (stateSet (stateSetString w u "last_boot_time" (SVal.timeStr c))
        u "boot_count" (SVal.intVal m)) u "last_boot_time" = some (SVal.timeStr c) := by
  have h := stateGet_set_ne_key (stateSetString w u "last_boot_time" (SVal.timeStr c))
    u "boot_count" "last_boot_time" (SVal.intVal m) (by decide)
  rw [stateGetString, h, stateSetString, stateGet_set_self]
  simp [isStringVal]

theorem bootCheck_same_instant_noop (name : String) (cur : Int) (w2 : StateWorld)
    (h2 : stateGetString w2 name "last_boot_time" = some (SVal.timeStr cur)) :
    bootCheck name cur w2 = (false, w2) := by
  simp [bootCheck, h2, parseRFC3339, ite_self]

/-- C8: boot trigger semantics.  (i) With no persisted `last_boot_time`,
`Check` stores the current boot instant and `boot_count = 1` and fires.
(ii) With a persisted instant and counter, it fires iff the absolute
difference exceeds 10 seconds, persisting the new instant and the
incremented counter.  (iii) Within the 10-second tolerance it returns false
and leaves the store unchanged.  (iv) Hence at most one fire per OS boot:
immediately after any firing `Check`, a `Check` at the same boot instant
returns false and changes nothing. -/
theorem boot_check_semantics (name : String) (cur : Int) (w : StateWorld) :
    (stateGetString w name "last_boot_time" = none →
      (bootCheck name cur w).1 = true ∧
      stateGetString (bootCheck name cur w).2 name "last_boot_time"
        = some (SVal.timeStr cur) ∧
      stateGet (bootCheck name cur w).2 name "boot_count" = some (SVal.intVal 1)) ∧
    (∀ last n : Int,
      stateGetString w name "last_boot_time" = some (SVal.timeStr last) →
      stateGet w name "boot_count" = some (SVal.intVal n) →
      (10 < cur - last ∨ 10 < last - cur) →
      (bootCheck name cur w).1 = true ∧
      stateGetString (bootCheck name cur w).2 name "last_boot_time"
        = some (SVal.timeStr cur) ∧
      stateGet (bootCheck name cur w).2 name "boot_count" = some (SVal.intVal (n + 1))) ∧
    (∀ last : Int,
      stateGetString w name "last_boot_time" = some (SVal.timeStr last) →
      cur - last ≤ 10 → last - cur ≤ 10 →
      bootCheck name cur w = (false, w)) ∧
    ((bootCheck name cur w).1 = true →
      bootCheck name cur (bootCheck name cur w).2 = (false, (bootCheck name cur w).2)) := by
  refine ⟨?_, ?_, ?_, ?_⟩
  · intro hg
    refine ⟨by simp [bootCheck, hg], ?_, ?_⟩
    · simp only [bootCheck, hg]
      exact stateGetString_after_boot_sets w name cur 1
    · simp only [bootCheck, hg]
      exact stateGet_set_self _ name "boot_count" (SVal.intVal 1)
  · intro last n hlast hcount hfar
    have hd : (if cur - last < 0 then last - cur else cur - last) > 10 := by
      split <;> omega
    have hb : bootCheck name cur w
        = (true, stateSet (stateSetString w name "last_boot_time" (SVal.timeStr cur))
            name "boot_count" (SVal.intVal (n + 1))) := by
      simp only [bootCheck, hlast, parseRFC3339, hcount, if_pos hd]
    refine ⟨by rw [hb], ?_, ?_⟩
    · rw [hb]
      exact stateGetString_after_boot_sets w name cur (n + 1)
    · rw [hb]
      exact stateGet_set_self _ name "boot_count" (SVal.intVal (n + 1))
  · intro last hlast h1 h2
    have hd : ¬((if cur - last < 0 then last - cur else cur - last) > 10) := by
      split <;> omega
    simp only [bootCheck, hlast, parseRFC3339, if_neg hd]
  · intro hfired
    apply bootCheck_same_instant_noop
    cases hg : stateGetString w name "last_boot_time" with
    | none =>
      simp only [bootCheck, hg]
      exact stateGetString_after_boot_sets w name cur 1
    | some v =>
      cases hv : parseRFC3339 v with
      | none =>
        simp only [bootCheck, hg, hv]
        exact stateGetString_after_boot_sets w name cur 1
      | some lastBoot =>
        by_cases hd : (if cur - lastBoot < 0 then lastBoot - cur else cur - lastBoot) > 10
        · simp only [bootCheck, hg, hv, if_pos hd]
          exact stateGetString_after_boot_sets w name cur _
        · exfalso
          simp only [bootCheck, hg, hv, if_neg hd] at hfired
          exact absurd hfired (by simp)

theorem cron_unparseable_state_witness :
    cronCheck next60 "cron" ⟨[("cron", [("last_execution", SVal.rawStr "garbage")])], none⟩ 42 =
      { fired := true
        world := stateSetString ⟨[("cron", [("last_execution", SVal.rawStr "garbage")])], none⟩
          "cron" "last_execution" (SVal.timeStr 42)
        loggedMissedRun := false } :=
  cron_unparseable_state_fires next60 "cron" _ 42 "garbage" (by decide)

theorem boot_check_witness :
    (bootCheck "b" 100 ⟨[("b", [("last_boot_time", SVal.timeStr 0),
        ("boot_count", SVal.intVal 3)])], none⟩).1 = true ∧
    stateGetString (bootCheck "b" 100 ⟨[("b", [("last_boot_time", SVal.timeStr 0),
        ("boot_count", SVal.intVal 3)])], none⟩).2 "b" "last_boot_time"
      = some (SVal.timeStr 100) ∧
    stateGet (bootCheck "b" 100 ⟨[("b", [("last_boot_time", SVal.timeStr 0),
        ("boot_count", SVal.intVal 3)])], none⟩).2 "b" "boot_count"
      = some (SVal.intVal (3 + 1)) :=
  (boot_check_semantics "b" 100 _).2.1 0 3 (by decide) (by decide) (Or.inl (by decide))

/-- C6: run unit result mapping.  Exit status 0 (a `nil` error from
`cmd.Run`) is success; a non-zero exit status `N` without an elapsed
deadline yields exactly the message `script exited with code N`; an elapsed
configured timeout yields exactly `task timed out after <dur>` with the Go
duration rendering, in particular exactly `task timed out after 1s` for a
one-second timeout. -/
theorem run_result_mapping (timeout : Int) (d : Bool) (code : Int) (e : ProcErr) :
    runUnitRun timeout { procErr := none, deadlineExceeded := d } = none ∧
    runUnitRun timeout { procErr := some (ProcErr.exit code), deadlineExceeded := false }
      = some ("script exited with code " ++ toString code) ∧
    runUnitRun timeout { procErr := some e, deadlineExceeded := true }
      = some ("task timed out after " ++ goDurationString timeout) ∧
    runUnitRun 1000000000 { procErr := some e, deadlineExceeded := true }
      = some "task timed out after 1s" := by
  refine ⟨rfl, rfl, rfl, ?_⟩
  have h1 : goDurationString 1000000000 = "1s" := by decide
  simp [runUnitRun, h1]

/-- C1: call-stack cycle prevention.  (i) In the fan-out loop, a downstream
name that resolves to a unit and already appears in the incoming call stack
is skipped with a circular-dependency diagnostic — it is not executed from
that reference and processing continues with the next name.  (ii) A target
not on the incoming call stack may run again from a different branch: in
the shared-sink scenario the `counter` action unit runs twice in one sweep.
(iii) In the self-loop scenario `A` runs exactly once with one circular
skip; (iv) in the indirect-cycle scenario `A` and `B` each run exactly once
with one circular skip. -/
theorem fanout_cycle_prevention :
    (∀ (units : List OUnit) (fuel : Nat) (n : String) (rest stack : List String)
        (st : OState) (t : OUnit),
      unitsByName units n = some t → n ∈ stack →
      fanOut units (fuel + 1) (n :: rest) stack st
        = fanOut units fuel rest stack (addEvent st (OEvent.skippedCircular n))) ∧
    ranCount (sweep scenarioShared 10 true).events "counter" = 2 ∧
    (ranCount (sweep scenarioSelfLoop 10 true).events "A" = 1 ∧
      circularSkipCount (sweep scenarioSelfLoop 10 true).events "A" = 1) ∧
    (ranCount (sweep scenarioCycle 10 true).events "A" = 1 ∧
      ranCount (sweep scenarioCycle 10 true).events "B" = 1 ∧
      circularSkipCount (sweep scenarioCycle 10 true).events "A" = 1) := by
  refine ⟨?_, by decide, ⟨by decide, by decide⟩, by decide, by decide, by decide⟩
  intro units fuel n rest stack st t h1 h2
  simp only [fanOut, h1, if_pos h2]

theorem fanout_cycle_prevention_witness :
    fanOut scenarioSelfLoop 5 ["A"] ["start", "A"]
        { results := [], terminal := "", events := [] }
      = fanOut scenarioSelfLoop 4 [] ["start", "A"]
          (addEvent { results := [], terminal := "", events := [] }
            (OEvent.skippedCircular "A")) :=
  fanout_cycle_prevention.1 scenarioSelfLoop 4 "A" [] ["start", "A"]
    { results := [], terminal := "", events := [] } selfLoopA (by decide) (by decide)

/-- C2: manual re-gating of downstream trigger units.  When a downstream
name resolves to a trigger unit not on the call stack and its
`Check(ctx, Manual)` returns false (first conjunct) or an error (second
conjunct), the target is not run, none of its reference lists are
expanded, and the fan-out continues with the next downstream name; only
the corresponding skip diagnostic is recorded. -/
theorem manual_check_gates_fanout :
    (∀ (units : List OUnit) (fuel : Nat) (n : String) (rest stack : List String)
        (st : OState) (t : OUnit),
      unitsByName units n = some t → n ∉ stack → t.isTrigger = true →
      t.checkManual = some false →
      fanOut units (fuel + 1) (n :: rest) stack st
        = fanOut units fuel rest stack (addEvent st (OEvent.skippedCheckFalse n))) ∧
    (∀ (units : List OUnit) (fuel : Nat) (n : String) (rest stack : List String)
        (st : OState) (t : OUnit),
      unitsByName units n = some t → n ∉ stack → t.isTrigger = true →
      t.checkManual = none →
      fanOut units (fuel + 1) (n :: rest) stack st
        = fanOut units fuel rest stack (addEvent st (OEvent.skippedCheckError n))) := by
  constructor <;> intro units fuel n rest stack st t h1 h2 h3 h4 <;>
    simp only [fanOut, h1, if_neg h2, if_pos h3, h4]

theorem manual_check_gates_fanout_witness :
    fanOut scenarioGated 5 ["gated"] ["start"]
        { results := [], terminal := "", events := [] }
      = fanOut scenarioGated 4 [] ["start"]
          (addEvent { results := [], terminal := "", events := [] }
            (OEvent.skippedCheckFalse "gated")) :=
  manual_check_gates_fanout.1 scenarioGated 4 "gated" [] ["start"]
    { results := [], terminal := "", events := [] } gatedTrigger
    (by decide) (by decide) rfl rfl

/-- C5: a git trigger with no poll interval checked in Polling mode is a
pure no-op — it returns false, performs no git IO, and neither reads nor
mutates the state store or its own bookkeeping. -/
theorem git_passive_polling_noop (name : String) (isWorkspace : Bool)
    (currentHash : String) (now : Int) (gs : GitUnitState) (w : StateWorld) :
    gitCheck name 0 CheckMode.polling isWorkspace currentHash now gs w
      = (false, gs, w, []) := rfl

theorem matchCSITail_length : ∀ (l r : List Char), matchCSITail l = some r →
    r.length < l.length := by
  intro l
  induction l with
  | nil => intro r h; simp [matchCSITail] at h
  | cons c cs ih =>
    intro r h
    simp only [matchCSITail] at h
    by_cases hp : csiParam c = true
    · rw [if_pos hp] at h
      have := ih r h
      simp only [List.length_cons]
      omega
    · rw [if_neg hp] at h
      by_cases hf : csiFinal c = true
      · rw [if_pos hf] at h
        obtain rfl := Option.some.inj h
        simp
      · rw [if_neg hf] at h
        exact absurd h (by simp)

theorem matchOSCTail_length : ∀ (l r : List Char), matchOSCTail l = some r →
    r.length < l.length := by
  intro l
  induction l with
  | nil => intro r h; simp [matchOSCTail] at h
  | cons c cs ih =>
    intro r h
    simp only [matchOSCTail] at h
    by_cases hb : c = belChar
    · rw [if_pos hb] at h
      obtain rfl := Option.some.inj h
      simp
    · rw [if_neg hb] at h
      have := ih r h
      simp only [List.length_cons]
      omega

theorem matchAnsi_length : ∀ (l r : List Char), matchAnsi l = some r →
    r.length < l.length := by
  intro l r h
  cases l with
  | nil => simp [matchAnsi] at h
  | cons c1 l1 =>
    cases l1 with
    | nil => simp [matchAnsi] at h
    | cons c2 cs =>
      simp only [matchAnsi] at h
      by_cases h12 : c1 = escChar ∧ c2 = '['
      · rw [if_pos h12] at h
        have := matchCSITail_length cs r h
        simp only [List.length_cons]
        omega
      · rw [if_neg h12] at h
        by_cases h13 : c1 = escChar ∧ c2 = ']'
        · rw [if_pos h13] at h
          cases cs with
          | nil => exact absurd h (by simp)
          | cons d l2 =>
            cases l2 with
            | nil => exact absurd h (by simp)
            | cons s cs2 =>
              have h2 : (if oscDigit d = true ∧ s = ';' then matchOSCTail cs2 else none)
                  = some r := h
              by_cases hds : oscDigit d = true ∧ s = ';'
              · rw [if_pos hds] at h2
                have := matchOSCTail_length cs2 r h2
                simp only [List.length_cons]
                omega
              · rw [if_neg hds] at h2
                exact absurd h2 (by simp)
        · rw [if_neg h13] at h
          exact absurd h (by simp)

theorem matchCSITail_sound : ∀ (l r : List Char), matchCSITail l = some r →
    ∃ ps f, (∀ c ∈ ps, csiParam c = true) ∧ csiFinal f = true ∧ l = ps ++ f :: r := by
  intro l
  induction l with
  | nil => intro r h; simp [matchCSITail] at h
  | cons c cs ih =>
    intro r h
    simp only [matchCSITail] at h
    by_cases hp : csiParam c = true
    · rw [if_pos hp] at h
      obtain ⟨ps, f, hps, hf, heq⟩ := ih r h
      refine ⟨c :: ps, f, ?_, hf, by simp [heq]⟩
      intro x hx
      rcases List.mem_cons.1 hx with hx | hx
      · exact hx ▸ hp
      · exact hps x hx
    · rw [if_neg hp] at h
      by_cases hf : csiFinal c = true
      · rw [if_pos hf] at h
        obtain rfl := Option.some.inj h
        exact ⟨[], c, by simp, hf, rfl⟩
      · rw [if_neg hf] at h
        exact absurd h (by simp)

theorem matchOSCTail_sound : ∀ (l r : List Char), matchOSCTail l = some r →
    ∃ mid, (∀ c ∈ mid, c ≠ belChar) ∧ l = mid ++ belChar :: r := by
  intro l
  induction l with
  | nil => intro r h; simp [matchOSCTail] at h
  | cons c cs ih =>
    intro r h
    simp only [matchOSCTail] at h
    by_cases hb : c = belChar
    · rw [if_pos hb] at h
      obtain rfl := Option.some.inj h
      exact ⟨[], by simp, by simp [hb]⟩
    · rw [if_neg hb] at h
      obtain ⟨mid, hmid, heq⟩ := ih r h
      refine ⟨c :: mid, ?_, by simp [heq]⟩
      intro x hx
      rcases List.mem_cons.1 hx with hx | hx
      · exact hx ▸ hb
      · exact hmid x hx

theorem matchAnsi_sound : ∀ (l r : List Char), matchAnsi l = some r →
    ∃ pre, (IsCSISeq pre ∨ IsOSCSeq pre) ∧ l = pre ++ r := by
  intro l r h
  cases l with
  | nil => simp [matchAnsi] at h
  | cons c1 l1 =>
    cases l1 with
    | nil => simp [matchAnsi] at h
    | cons c2 cs =>
      simp only [matchAnsi] at h
      by_cases h12 : c1 = escChar ∧ c2 = '['
      · rw [if_pos h12] at h
        obtain ⟨ps, f, hps, hf, heq⟩ := matchCSITail_sound cs r h
        refine ⟨escChar :: '[' :: (ps ++ [f]), Or.inl ⟨ps, f, hps, hf, rfl⟩, ?_⟩
        rw [h12.1, h12.2, heq]
        simp
      · rw [if_neg h12] at h
        by_cases h13 : c1 = escChar ∧ c2 = ']'
        · rw [if_pos h13] at h
          cases cs with
          | nil => exact absurd h (by simp)
          | cons d l2 =>
            cases l2 with
            | nil => exact absurd h (by simp)
            | cons s cs2 =>
              have h2 : (if oscDigit d = true ∧ s = ';' then matchOSCTail cs2 else none)
                  = some r := h
              by_cases hds : oscDigit d = true ∧ s = ';'
              · rw [if_pos hds] at h2
                obtain ⟨mid, hmid, heq⟩ := matchOSCTail_sound cs2 r h2
                refine ⟨escChar :: ']' :: d :: ';' :: (mid ++ [belChar]),
                  Or.inr ⟨d, mid, hds.1, hmid, rfl⟩, ?_⟩
                rw [h13.1, h13.2, hds.2, heq]
                simp
              · rw [if_neg hds] at h2
                exact absurd h2 (by simp)
        · rw [if_neg h13] at h
          exact absurd h (by simp)

theorem csiFinal_not_param (c : Char) (h : csiFinal c = true) : ¬(csiParam c = true) := by
  intro hp
  simp only [csiFinal, between, Bool.or_eq_true, decide_eq_true_eq] at h
  simp only [csiParam, between, Bool.or_eq_true, decide_eq_true_eq] at hp
  omega

theorem matchCSITail_complete (ps : List Char) (f : Char) (rest : List Char)
    (hps : ∀ c ∈ ps, csiParam c = true) (hf : csiFinal f = true) :
    matchCSITail (ps ++ f :: rest) = some rest := by
  induction ps with
  | nil =>
    simp only [List.nil_append, matchCSITail]
    rw [if_neg (csiFinal_not_param f hf), if_pos hf]
  | cons c ps2 ih =>
    simp only [List.cons_append, matchCSITail]
    rw [if_pos (hps c (by simp))]
    exact ih fun x hx => hps x (by simp [hx])

theorem matchOSCTail_complete (mid : List Char) (rest : List Char)
    (hmid : ∀ c ∈ mid, c ≠ belChar) :
    matchOSCTail (mid ++ belChar :: rest) = some rest := by
  induction mid with
  | nil => simp [matchOSCTail]
  | cons c mid2 ih =>
    simp only [List.cons_append, matchOSCTail]
    rw [if_neg (hmid c (by simp))]
    exact ih fun x hx => hmid x (by simp [hx])

theorem matchAnsi_at_csi (cs : List Char) :
    matchAnsi (escChar :: '[' :: cs) = matchCSITail cs := by
  simp [matchAnsi]

theorem matchAnsi_at_osc (d s : Char) (cs2 : List Char) :
    matchAnsi (escChar :: ']' :: d :: s :: cs2)
      = if oscDigit d = true ∧ s = ';' then matchOSCTail cs2 else none := by
  simp [matchAnsi, escChar]

theorem headAnsi_matches (l : List Char) (h : HeadAnsi l) :
    ∃ r, matchAnsi l = some r := by
  obtain ⟨pre, rest, hor, rfl⟩ := h
  rcases hor with ⟨ps, f, hps, hf, rfl⟩ | ⟨d, mid, hd, hmid, rfl⟩
  · refine ⟨rest, ?_⟩
    have hassoc : (escChar :: '[' :: (ps ++ [f])) ++ rest
        = escChar :: '[' :: (ps ++ (f :: rest)) := by simp
    rw [hassoc, matchAnsi_at_csi]
    exact matchCSITail_complete ps f rest hps hf
  · refine ⟨rest, ?_⟩
    have hassoc : (escChar :: ']' :: d :: ';' :: (mid ++ [belChar])) ++ rest
        = escChar :: ']' :: d :: ';' :: (mid ++ (belChar :: rest)) := by simp
    rw [hassoc, matchAnsi_at_osc, if_pos ⟨hd, rfl⟩]
    exact matchOSCTail_complete mid rest hmid

theorem stripFuel_spec : ∀ (fuel : Nat) (l : List Char), l.length ≤ fuel →
    StripSpec l (stripFuel fuel l) := by
  intro fuel
  induction fuel with
  | zero =>
    intro l hl
    obtain rfl : l = [] := List.eq_nil_of_length_eq_zero (by omega)
    exact StripSpec.nil
  | succ fuel ih =>
    intro l hl
    cases l with
    | nil => exact StripSpec.nil
    | cons c cs =>
      cases hm : matchAnsi (c :: cs) with
      | some rest =>
        have hlen := matchAnsi_length (c :: cs) rest hm
        have hrec := ih rest (by simp only [List.length_cons] at hl hlen; omega)
        obtain ⟨pre, hor, heq⟩ := matchAnsi_sound (c :: cs) rest hm
        have hred : stripFuel (fuel + 1) (c :: cs) = stripFuel fuel rest := by
          simp only [stripFuel, hm]
        rw [hred, heq]
        exact StripSpec.strip pre rest _ hor hrec
      | none =>
        have hrec := ih cs (by simp only [List.length_cons] at hl; omega)
        have hred : stripFuel (fuel + 1) (c :: cs) = c :: stripFuel fuel cs := by
          simp only [stripFuel, hm]
        rw [hred]
        refine StripSpec.keep c cs _ ?_ hrec
        intro hha
        obtain ⟨r, hr⟩ := headAnsi_matches _ hha
        rw [hm] at hr
        exact Option.noConfusion hr

/-- C9 amended: the output recorded in the results map is the captured
text with exactly the sequences the code's regex accepts removed — CSI of
the form `ESC [ [0-9;]* letter` and OSC of the form `ESC ] digit ;
non-bell* BEL` — scanning left to right (`StripSpec` characterises the
pass); the bytes written to the terminal retain all sequences.  OSC
sequences with a non-digit code and CSI sequences with non-letter final
bytes are kept (see the counterexample). -/
theorem output_propagation_strips_regex_matches :
    (∀ l : List Char, StripSpec l (stripAnsiList l)) ∧
    (∀ (st : OState) (u : OUnit),
      (recordRun st u).terminal = st.terminal ++ u.output ∧
      lookupA (recordRun st u).results u.name = some (u.runErr, stripANSI u.output)) ∧
    stripANSI "\x1b[31mred\x1b[0m" = "red" ∧
    stripANSI "\x1b]0;title\x07x" = "x" := by
  refine ⟨?_, ?_, by decide, by decide⟩
  · intro l
    exact stripFuel_spec l.length l (le_refl _)
  · intro st u
    exact ⟨rfl, by simp [recordRun, lookupA_setA_self]⟩

theorem specStripClaim_length : ∀ {a b : List Char}, SpecStripClaim a b →
    b.length ≤ a.length := by
  intro a b h
  induction h with
  | nil => simp
  | strip pre rest out hor hs ih =>
    simp only [List.length_append]
    omega
  | keep c rest out hna hs ih =>
    simp only [List.length_cons]
    omega

theorem claim_seq_min_length : ∀ {pre : List Char},
    (IsCSISeqClaim pre ∨ IsOSCSeqClaim pre) → 3 ≤ pre.length := by
  intro pre h
  rcases h with ⟨mid, f, _, _, rfl⟩ | ⟨mid, _, rfl⟩ <;>
    simp only [List.length_cons, List.length_append, List.length_singleton] <;> omega

theorem specStripClaim_strict (a b : List Char) (h : SpecStripClaim a b)
    (hha : HeadAnsiClaim a) : b.length < a.length := by
  cases h with
  | nil =>
    obtain ⟨pre, rest, hor, heq⟩ := hha
    have h3 := claim_seq_min_length hor
    have h0 : pre.length + rest.length = 0 := by
      rw [← List.length_append, ← heq]
      rfl
    omega
  | strip pre rest out hor hs =>
    have h3 := claim_seq_min_length hor
    have h4 := specStripClaim_length hs
    simp only [List.length_append]
    omega
  | keep c rest out hna hs => exact absurd hha hna

/-- C9 counterexample: the complete OSC sequence `ESC ] a b BEL` is an
`ESC ] ... BEL` sequence in the claimed sense, yet the code's regex leaves
it untouched (it requires a single digit and a semicolon after `ESC ]`),
so the recorded output is not the captured text with every OSC sequence
removed. -/
theorem ansi_osc_not_stripped_counterexample :
    stripAnsiList oscExample = oscExample ∧
    ¬SpecStripClaim oscExample (stripAnsiList oscExample) := by
  have h1 : stripAnsiList oscExample = oscExample := by decide
  refine ⟨h1, ?_⟩
  rw [h1]
  intro h
  have hha : HeadAnsiClaim oscExample := by
    refine ⟨oscExample, [], Or.inr ⟨['a', 'b'], by decide, by decide⟩, by simp⟩
  have := specStripClaim_strict oscExample oscExample h hha
  omega

end BRun
